import Mathlib

/-!
Verification of the debounce/state-confirmation engine of the tuya-online
power monitor.

The embedding follows `src/logic.py` (the pure core), `src/state_store.py`
(DynamoDB persistence) and the call site in `src/app.py`.

Modelling conventions:
- Python `Optional[bool]` / `Optional[float]` become `Option Bool` / `Option Int`.
- Wall-clock timestamps (`time.time()`, a float in the source) are modelled as
  integers: the engine only subtracts and compares timestamps, so exact integer
  arithmetic is a faithful abstraction of the values actually relied upon.
  The single `now = time.time()` read at the top of `process_state_change`
  becomes an explicit `now : Int` argument.
- The Python function mutates a fresh copy of the previous dataclass; here each
  phase produces a new record value, which is observationally the same.
-/

namespace TuyaOnline

/-- State structure for the debouncing logic (`DebounceState` in `src/logic.py`).
Field names and defaults match the Python dataclass. -/
structure DebounceState where
  last_confirmed_online : Option Bool := none
  last_observed_online : Option Bool := none
  streak : Nat := 0
  last_change_ts : Option Int := none
  last_message_ts : Option Int := none
  pending_change_since : Option Int := none
  first_observed_change_ts : Option Int := none
  deriving Repr, DecidableEq

/-- Phase 1 of `process_state_change` (`src/logic.py` lines 80–92): update the
observation and the streak. On a matching observation the streak is incremented
and capped at `debounce_threshold + 1`; on a differing observation the
observation is replaced, the streak resets to 1, the start of the new streak is
stamped, and a pending change (if any) is cancelled. -/
def update_observation (prev_state : DebounceState) (current_online : Bool)
    (debounce_threshold : Nat) (now : Int) : DebounceState :=
  if prev_state.last_observed_online = some current_online then
    { prev_state with streak := min (prev_state.streak + 1) (debounce_threshold + 1) }
  else
    { prev_state with
        last_observed_online := some current_online
        streak := 1
        first_observed_change_ts := some now
        pending_change_since :=
          if prev_state.pending_change_since ≠ none then none
          else prev_state.pending_change_since }

/-- Phase 2 of `process_state_change` (`src/logic.py` lines 94–126): candidate
detection, confirmation-delay check, confirmation, and initial-baseline
establishment. In the source, when `pending_change_since` is `None` it is first
set to `now` and `elapsed = now - pending_change_since` is then computed; here
this two-step idiom is expressed with `Option.getD now`, which yields the same
`elapsed` and the same stored value in every branch. -/
def process_phase2 (s1 : DebounceState) (debounce_threshold : Nat)
    (confirmation_delay_seconds : Int) (now : Int) : DebounceState × Bool :=
  if s1.last_confirmed_online ≠ none ∧
      s1.last_observed_online ≠ s1.last_confirmed_online ∧
      debounce_threshold ≤ s1.streak then
    if confirmation_delay_seconds ≤ now - s1.pending_change_since.getD now then
      ({ s1 with
          last_confirmed_online := s1.last_observed_online
          last_change_ts := some now
          last_message_ts := some now
          pending_change_since := none }, true)
    else
      ({ s1 with pending_change_since := some (s1.pending_change_since.getD now) }, false)
  else if s1.last_confirmed_online = none ∧ debounce_threshold ≤ s1.streak then
    ({ s1 with
        last_confirmed_online := s1.last_observed_online
        last_change_ts := some now }, false)
  else
    (s1, false)

/-- `process_state_change` from `src/logic.py` (lines 41–126): process a new
online-status reading and decide whether a notification should be sent.
`confirmation_delay_seconds` defaults to 0 as in the Python signature. -/
def process_state_change (prev_state : DebounceState) (current_online : Bool)
    (debounce_threshold : Nat) (confirmation_delay_seconds : Int := 0)
    (now : Int := 0) : DebounceState × Bool :=
  process_phase2 (update_observation prev_state current_online debounce_threshold now)
    debounce_threshold confirmation_delay_seconds now

/-- Run the engine over a list of timestamped observations, collecting the
state and notification decision after every call. -/
def run_trace (s : DebounceState) (debounce_threshold : Nat)
    (confirmation_delay_seconds : Int) : List (Bool × Int) → List (DebounceState × Bool)
  | [] => []
  | (b, t) :: rest =>
      let r := process_state_change s b debounce_threshold confirmation_delay_seconds t
      r :: run_trace r.1 debounce_threshold confirmation_delay_seconds rest

/-- The state left by the engine after a list of timestamped observations. -/
def run_final (s : DebounceState) (debounce_threshold : Nat)
    (confirmation_delay_seconds : Int) : List (Bool × Int) → DebounceState
  | [] => s
  | (b, t) :: rest =>
      run_final (process_state_change s b debounce_threshold confirmation_delay_seconds t).1
        debounce_threshold confirmation_delay_seconds rest

/-! Basic lemmas about the observation phase. -/

theorem update_observation_observed (prev : DebounceState) (c : Bool) (thr : Nat) (now : Int) :
    (update_observation prev c thr now).last_observed_online = some c := by
  unfold update_observation
  split
  · next h => simpa using h
  · rfl

theorem update_observation_confirmed (prev : DebounceState) (c : Bool) (thr : Nat) (now : Int) :
    (update_observation prev c thr now).last_confirmed_online = prev.last_confirmed_online := by
  unfold update_observation
  split <;> rfl

theorem update_observation_streak_le (prev : DebounceState) (c : Bool) (thr : Nat) (now : Int) :
    (update_observation prev c thr now).streak ≤ thr + 1 := by
  unfold update_observation
  split
  · exact Nat.min_le_right _ _
  · exact Nat.succ_le_succ (Nat.zero_le _)

theorem update_observation_pending_sub (prev : DebounceState) (c : Bool) (thr : Nat) (now : Int) :
    (update_observation prev c thr now).pending_change_since = prev.pending_change_since ∨
      (update_observation prev c thr now).pending_change_since = none := by
  unfold update_observation
  split
  · exact Or.inl rfl
  · right
    split
    · rfl
    · next h => simpa using h

theorem update_observation_same (prev : DebounceState) (c : Bool) (thr : Nat) (now : Int)
    (h : prev.last_observed_online = some c) :
    update_observation prev c thr now =
      { prev with streak := min (prev.streak + 1) (thr + 1) } := by
  unfold update_observation
  rw [if_pos h]

theorem update_observation_diff (prev : DebounceState) (c : Bool) (thr : Nat) (now : Int)
    (h : prev.last_observed_online ≠ some c) :
    update_observation prev c thr now =
      { prev with
          last_observed_online := some c
          streak := 1
          first_observed_change_ts := some now
          pending_change_since := none } := by
  unfold update_observation
  rw [if_neg h]
  cases hp : prev.pending_change_since <;> simp [hp]

/-! Basic lemmas about the decision phase. -/

theorem process_phase2_streak (s1 : DebounceState) (thr : Nat) (d now : Int) :
    (process_phase2 s1 thr d now).1.streak = s1.streak := by
  unfold process_phase2
  split_ifs <;> rfl

theorem process_phase2_observed (s1 : DebounceState) (thr : Nat) (d now : Int) :
    (process_phase2 s1 thr d now).1.last_observed_online = s1.last_observed_online := by
  unfold process_phase2
  split_ifs <;> rfl

theorem process_phase2_eq_confirm (s1 : DebounceState) (thr : Nat) (d now : Int)
    (h1 : s1.last_confirmed_online ≠ none)
    (h2 : s1.last_observed_online ≠ s1.last_confirmed_online)
    (h3 : thr ≤ s1.streak)
    (h4 : d ≤ now - s1.pending_change_since.getD now) :
    process_phase2 s1 thr d now =
      ({ s1 with
          last_confirmed_online := s1.last_observed_online
          last_change_ts := some now
          last_message_ts := some now
          pending_change_since := none }, true) := by
  unfold process_phase2
  rw [if_pos ⟨h1, h2, h3⟩, if_pos h4]

theorem process_phase2_eq_wait (s1 : DebounceState) (thr : Nat) (d now : Int)
    (h1 : s1.last_confirmed_online ≠ none)
    (h2 : s1.last_observed_online ≠ s1.last_confirmed_online)
    (h3 : thr ≤ s1.streak)
    (h4 : ¬ d ≤ now - s1.pending_change_since.getD now) :
    process_phase2 s1 thr d now =
      ({ s1 with pending_change_since := some (s1.pending_change_since.getD now) }, false) := by
  unfold process_phase2
  rw [if_pos ⟨h1, h2, h3⟩, if_neg h4]

theorem process_phase2_eq_initial (s1 : DebounceState) (thr : Nat) (d now : Int)
    (h1 : s1.last_confirmed_online = none) (h2 : thr ≤ s1.streak) :
    process_phase2 s1 thr d now =
      ({ s1 with
          last_confirmed_online := s1.last_observed_online
          last_change_ts := some now }, false) := by
  unfold process_phase2
  rw [if_neg (fun hc => hc.1 h1), if_pos ⟨h1, h2⟩]

theorem process_phase2_eq_skip (s1 : DebounceState) (thr : Nat) (d now : Int)
    (hA : ¬ (s1.last_confirmed_online ≠ none ∧
      s1.last_observed_online ≠ s1.last_confirmed_online ∧ thr ≤ s1.streak))
    (hB : ¬ (s1.last_confirmed_online = none ∧ thr ≤ s1.streak)) :
    process_phase2 s1 thr d now = (s1, false) := by
  unfold process_phase2
  rw [if_neg hA, if_neg hB]

theorem process_phase2_notify_iff (s1 : DebounceState) (thr : Nat) (d now : Int) :
    (process_phase2 s1 thr d now).2 = true ↔
      (s1.last_confirmed_online ≠ none ∧
        s1.last_observed_online ≠ s1.last_confirmed_online ∧
        thr ≤ s1.streak ∧ d ≤ now - s1.pending_change_since.getD now) := by
  unfold process_phase2
  split_ifs with hA hD hB
  · simpa using ⟨hA.1, hA.2.1, hA.2.2, hD⟩
  · simp only [show (false = true) = False from by simp, false_iff]
    exact fun hc => hD hc.2.2.2
  · simp only [show (false = true) = False from by simp, false_iff]
    exact fun hc => hA ⟨hc.1, hc.2.1, hc.2.2.1⟩
  · simp only [show (false = true) = False from by simp, false_iff]
    exact fun hc => hA ⟨hc.1, hc.2.1, hc.2.2.1⟩

theorem process_phase2_confirmed_of_not_notify (s1 : DebounceState) (thr : Nat) (d now : Int)
    (hk : s1.last_confirmed_online ≠ none)
    (h : (process_phase2 s1 thr d now).2 = false) :
    (process_phase2 s1 thr d now).1.last_confirmed_online = s1.last_confirmed_online := by
  by_cases hA : (s1.last_confirmed_online ≠ none ∧
      s1.last_observed_online ≠ s1.last_confirmed_online ∧ thr ≤ s1.streak)
  · by_cases hD : d ≤ now - s1.pending_change_since.getD now
    · rw [process_phase2_eq_confirm s1 thr d now hA.1 hA.2.1 hA.2.2 hD] at h
      cases h
    · rw [process_phase2_eq_wait s1 thr d now hA.1 hA.2.1 hA.2.2 hD]
  · by_cases hB : (s1.last_confirmed_online = none ∧ thr ≤ s1.streak)
    · exact absurd hB.1 hk
    · rw [process_phase2_eq_skip s1 thr d now hA hB]

theorem run_trace_nil (s : DebounceState) (thr : Nat) (delay : Int) :
    run_trace s thr delay [] = [] := rfl

theorem run_trace_cons (s : DebounceState) (thr : Nat) (delay : Int)
    (b : Bool) (t : Int) (rest : List (Bool × Int)) :
    run_trace s thr delay ((b, t) :: rest) =
      process_state_change s b thr delay t ::
        run_trace (process_state_change s b thr delay t).1 thr delay rest := rfl

theorem run_final_nil (s : DebounceState) (thr : Nat) (delay : Int) :
    run_final s thr delay [] = s := rfl

theorem run_final_cons (s : DebounceState) (thr : Nat) (delay : Int)
    (b : Bool) (t : Int) (rest : List (Bool × Int)) :
    run_final s thr delay ((b, t) :: rest) =
      run_final (process_state_change s b thr delay t).1 thr delay rest := rfl

/-- When the observation matches an already-confirmed state, the call is a pure
streak increment and decides nothing. -/
theorem process_stable_step (s : DebounceState) (b : Bool) (thr : Nat) (delay t : Int)
    (hc : s.last_confirmed_online = some b) (ho : s.last_observed_online = some b) :
    process_state_change s b thr delay t =
      ({ s with streak := min (s.streak + 1) (thr + 1) }, false) := by
  unfold process_state_change
  rw [update_observation_same s b thr t ho]
  apply process_phase2_eq_skip
  · rintro ⟨_, hne, _⟩
    exact hne (ho.trans hc.symm)
  · rintro ⟨hn, _⟩
    have hn' : s.last_confirmed_online = none := hn
    rw [hc] at hn'
    exact Option.noConfusion hn'

/-- C3: Establishing a baseline never notifies: whenever `last_confirmed_online`
is unknown, `process_state_change` returns `shouldNotify = false` for every
observation, threshold ≥ 1 and delay ≥ 0 — including the call on which the
streak reaches the threshold, where the initial state is confirmed as the
observed value and `last_change_ts` is stamped. -/
theorem baseline_never_notifies (prev : DebounceState) (current : Bool)
    (thr : Nat) (delay now : Int)
    (hthr : 1 ≤ thr) (hdelay : 0 ≤ delay)
    (hconf : prev.last_confirmed_online = none) :
    (process_state_change prev current thr delay now).2 = false ∧
      (thr ≤ (process_state_change prev current thr delay now).1.streak →
        (process_state_change prev current thr delay now).1.last_confirmed_online = some current ∧
        (process_state_change prev current thr delay now).1.last_change_ts = some now) := by
  unfold process_state_change
  set u := update_observation prev current thr now with hu
  have hc1 : u.last_confirmed_online = none := by
    rw [hu, update_observation_confirmed]; exact hconf
  have hobs : u.last_observed_online = some current := by
    rw [hu]; exact update_observation_observed prev current thr now
  by_cases hs : thr ≤ u.streak
  · rw [process_phase2_eq_initial u thr delay now hc1 hs]
    refine ⟨rfl, fun _ => ⟨?_, rfl⟩⟩
    show u.last_observed_online = some current
    exact hobs
  · have hA : ¬ (u.last_confirmed_online ≠ none ∧
        u.last_observed_online ≠ u.last_confirmed_online ∧ thr ≤ u.streak) :=
      fun hc => hs hc.2.2
    have hB : ¬ (u.last_confirmed_online = none ∧ thr ≤ u.streak) := fun hc => hs hc.2
    rw [process_phase2_eq_skip u thr delay now hA hB]
    exact ⟨rfl, fun hst => absurd hst hs⟩

theorem baseline_never_notifies_witness :
    1 ≤ 2 ∧ (0 : Int) ≤ 0 ∧ (({} : DebounceState).last_confirmed_online = none) ∧
      ((process_state_change {} true 2 0 5).2 = false ∧
        (2 ≤ (process_state_change {} true 2 0 5).1.streak →
          (process_state_change {} true 2 0 5).1.last_confirmed_online = some true ∧
          (process_state_change {} true 2 0 5).1.last_change_ts = some 5)) :=
  ⟨by decide, by decide, rfl,
    baseline_never_notifies {} true 2 0 5 (by decide) (by decide) rfl⟩

/-- C4: Streak cap: for every input state, observation and threshold ≥ 1, the
state returned by `process_state_change` has `streak ≤ debounceThreshold + 1`;
hence folding any nonempty sequence of observations through the transition
leaves the streak at most `debounceThreshold + 1`. -/
theorem streak_cap (thr : Nat) (delay : Int) (hthr : 1 ≤ thr) :
    (∀ (prev : DebounceState) (current : Bool) (now : Int),
        (process_state_change prev current thr delay now).1.streak ≤ thr + 1) ∧
    (∀ (s : DebounceState) (obs : List (Bool × Int)), obs ≠ [] →
        (run_final s thr delay obs).streak ≤ thr + 1) := by
  have hstep : ∀ (prev : DebounceState) (current : Bool) (now : Int),
      (process_state_change prev current thr delay now).1.streak ≤ thr + 1 := by
    intro prev current now
    unfold process_state_change
    rw [process_phase2_streak]
    exact update_observation_streak_le prev current thr now
  refine ⟨hstep, ?_⟩
  intro s obs
  induction obs generalizing s with
  | nil => intro h; exact absurd rfl h
  | cons o rest ih =>
      obtain ⟨b, t⟩ := o
      intro _
      show (run_final (process_state_change s b thr delay t).1 thr delay rest).streak ≤ thr + 1
      cases rest with
      | nil => exact hstep s b t
      | cons o2 rest2 => exact ih (process_state_change s b thr delay t).1 (by simp)

theorem streak_cap_witness :
    1 ≤ 2 ∧ (process_state_change {} true 2 0 0).1.streak ≤ 2 + 1 ∧
      (run_final {} 2 0 [(true, 0), (true, 1)]).streak ≤ 2 + 1 :=
  ⟨by decide, (streak_cap 2 0 (by decide)).1 {} true 0,
    (streak_cap 2 0 (by decide)).2 {} [(true, 0), (true, 1)] (by simp)⟩

/-- C6: Confirmed state is monotone in knowledge: once `last_confirmed_online`
is a concrete boolean, the state returned by `process_state_change` again has a
concrete boolean there — no transition resets it to unknown. -/
theorem confirmed_never_forgotten (prev : DebounceState) (b current : Bool)
    (thr : Nat) (delay now : Int)
    (h : prev.last_confirmed_online = some b) :
    (process_state_change prev current thr delay now).1.last_confirmed_online ≠ none := by
  unfold process_state_change
  set u := update_observation prev current thr now with hu
  have h1 : u.last_confirmed_online = some b := by
    rw [hu, update_observation_confirmed]; exact h
  have hobs : u.last_observed_online = some current := by
    rw [hu]; exact update_observation_observed prev current thr now
  by_cases hA : (u.last_confirmed_online ≠ none ∧
      u.last_observed_online ≠ u.last_confirmed_online ∧ thr ≤ u.streak)
  · by_cases hD : delay ≤ now - u.pending_change_since.getD now
    · rw [process_phase2_eq_confirm u thr delay now hA.1 hA.2.1 hA.2.2 hD]
      show u.last_observed_online ≠ none
      rw [hobs]; simp
    · rw [process_phase2_eq_wait u thr delay now hA.1 hA.2.1 hA.2.2 hD]
      show u.last_confirmed_online ≠ none
      rw [h1]; simp
  · by_cases hB : (u.last_confirmed_online = none ∧ thr ≤ u.streak)
    · rw [h1] at hB
      exact absurd hB.1 (by simp)
    · rw [process_phase2_eq_skip u thr delay now hA hB]
      show u.last_confirmed_online ≠ none
      rw [h1]; simp

theorem confirmed_never_forgotten_witness :
    ((⟨some true, some true, 2, none, none, none, none⟩ : DebounceState).last_confirmed_online
        = some true) ∧
      (process_state_change ⟨some true, some true, 2, none, none, none, none⟩ false 2 0 3).1.last_confirmed_online ≠ none :=
  ⟨rfl, confirmed_never_forgotten ⟨some true, some true, 2, none, none, none, none⟩
    true false 2 0 3 rfl⟩

/-- C9: Notification characterization: `process_state_change` returns
`shouldNotify = true` exactly when the input's `last_confirmed_online` is a
known boolean and the output's `last_confirmed_online` differs from it — a
notification is produced exactly when a known confirmed state flips. -/
theorem notify_iff_confirmed_flip (prev : DebounceState) (current : Bool)
    (thr : Nat) (delay now : Int) (hthr : 1 ≤ thr) (hdelay : 0 ≤ delay) :
    (process_state_change prev current thr delay now).2 = true ↔
      prev.last_confirmed_online ≠ none ∧
        (process_state_change prev current thr delay now).1.last_confirmed_online ≠
          prev.last_confirmed_online := by
  unfold process_state_change
  set u := update_observation prev current thr now with hu
  have hcu : u.last_confirmed_online = prev.last_confirmed_online := by
    rw [hu]; exact update_observation_confirmed prev current thr now
  by_cases hA : (u.last_confirmed_online ≠ none ∧
      u.last_observed_online ≠ u.last_confirmed_online ∧ thr ≤ u.streak)
  · by_cases hD : delay ≤ now - u.pending_change_since.getD now
    · rw [process_phase2_eq_confirm u thr delay now hA.1 hA.2.1 hA.2.2 hD]
      constructor
      · intro _
        refine ⟨by rw [← hcu]; exact hA.1, ?_⟩
        show u.last_observed_online ≠ prev.last_confirmed_online
        rw [← hcu]; exact hA.2.1
      · intro _; rfl
    · rw [process_phase2_eq_wait u thr delay now hA.1 hA.2.1 hA.2.2 hD]
      constructor
      · intro hft; exact Bool.noConfusion hft
      · rintro ⟨_, hne⟩
        exact absurd hcu hne
  · by_cases hB : (u.last_confirmed_online = none ∧ thr ≤ u.streak)
    · rw [process_phase2_eq_initial u thr delay now hB.1 hB.2]
      constructor
      · intro hft; exact Bool.noConfusion hft
      · rintro ⟨hne, _⟩
        have hpn : prev.last_confirmed_online = none := by rw [← hcu]; exact hB.1
        exact absurd hpn hne
    · rw [process_phase2_eq_skip u thr delay now hA hB]
      constructor
      · intro hft; exact Bool.noConfusion hft
      · rintro ⟨_, hflip⟩
        exact absurd hcu hflip

theorem notify_iff_confirmed_flip_witness :
    1 ≤ 2 ∧ (0 : Int) ≤ 0 ∧
      ((process_state_change ⟨some true, some false, 1, none, none, none, none⟩ false 2 0 7).2 = true ↔
        (some true : Option Bool) ≠ none ∧
          (process_state_change ⟨some true, some false, 1, none, none, none, none⟩ false 2 0 7).1.last_confirmed_online ≠ some true) :=
  ⟨by decide, by decide,
    notify_iff_confirmed_flip ⟨some true, some false, 1, none, none, none, none⟩
      false 2 0 7 (by decide) (by decide)⟩

/-- C1: With `confirmationDelay = 0`, from a reachable confirmed state (known
`last_confirmed_online`, any pending timestamp not in the future of `now`),
`process_state_change` notifies exactly on the cycle where the streak reaches
the debounce threshold while the updated observation differs from the confirmed
value; when it notifies it sets `last_confirmed_online` to the observed value
and stamps `last_change_ts` and `last_message_ts`; and Scenario B holds: from
`{confirmed := true, observed := true, streak := 2}` with threshold 2,
observations `[false, false]` give `shouldNotify = false, streak = 1` after the
first call and `shouldNotify = true, confirmed = false` after the second. -/
theorem delay_zero_confirms_exactly_at_threshold (prev : DebounceState) (b current : Bool)
    (thr : Nat) (now : Int) (hthr : 1 ≤ thr)
    (hconf : prev.last_confirmed_online = some b)
    (hreach : ∀ t, prev.pending_change_since = some t → t ≤ now) :
    ((process_state_change prev current thr 0 now).2 = true ↔
        ((update_observation prev current thr now).last_observed_online ≠ some b ∧
          thr ≤ (update_observation prev current thr now).streak)) ∧
      ((process_state_change prev current thr 0 now).2 = true →
        (process_state_change prev current thr 0 now).1.last_confirmed_online = some current ∧
        (process_state_change prev current thr 0 now).1.last_change_ts = some now ∧
        (process_state_change prev current thr 0 now).1.last_message_ts = some now) ∧
      ((process_state_change ⟨some true, some true, 2, none, none, none, none⟩ false 2 0 0).2 = false ∧
        (process_state_change ⟨some true, some true, 2, none, none, none, none⟩ false 2 0 0).1.streak = 1 ∧
        (process_state_change (process_state_change ⟨some true, some true, 2, none, none, none, none⟩ false 2 0 0).1 false 2 0 1).2 = true ∧
        (process_state_change (process_state_change ⟨some true, some true, 2, none, none, none, none⟩ false 2 0 0).1 false 2 0 1).1.last_confirmed_online = some false) := by
  unfold process_state_change
  set u := update_observation prev current thr now with hu
  have hcu : u.last_confirmed_online = some b := by
    rw [hu, update_observation_confirmed]; exact hconf
  have hobs : u.last_observed_online = some current := by
    rw [hu]; exact update_observation_observed prev current thr now
  have hps := update_observation_pending_sub prev current thr now
  rw [← hu] at hps
  have hD : (0 : Int) ≤ now - u.pending_change_since.getD now := by
    cases hp : u.pending_change_since with
    | none => simp
    | some t =>
        rcases hps with hps | hps
        · have ht : t ≤ now := hreach t (by rw [← hps]; exact hp)
          simp only [hp, Option.getD_some]
          omega
        · rw [hp] at hps; exact Option.noConfusion hps
  by_cases hflip : (u.last_observed_online ≠ some b ∧ thr ≤ u.streak)
  · have hA1 : u.last_confirmed_online ≠ none := by rw [hcu]; simp
    have hA2 : u.last_observed_online ≠ u.last_confirmed_online := by
      rw [hcu]; exact hflip.1
    rw [process_phase2_eq_confirm u thr 0 now hA1 hA2 hflip.2 hD]
    refine ⟨⟨fun _ => hflip, fun _ => rfl⟩, fun _ => ⟨?_, rfl, rfl⟩, by decide⟩
    show u.last_observed_online = some current
    exact hobs
  · have hA : ¬ (u.last_confirmed_online ≠ none ∧
        u.last_observed_online ≠ u.last_confirmed_online ∧ thr ≤ u.streak) := by
      rintro ⟨_, hne, hst⟩
      exact hflip ⟨by rw [← hcu]; exact hne, hst⟩
    have hB : ¬ (u.last_confirmed_online = none ∧ thr ≤ u.streak) := by
      rintro ⟨hn, _⟩
      rw [hcu] at hn
      exact Option.noConfusion hn
    rw [process_phase2_eq_skip u thr 0 now hA hB]
    exact ⟨⟨fun hft => Bool.noConfusion hft, fun hc => absurd hc hflip⟩,
      fun hft => Bool.noConfusion hft, by decide⟩

theorem delay_zero_confirms_exactly_at_threshold_witness :
    1 ≤ 2 ∧
      ((process_state_change ⟨some true, some false, 1, none, none, none, none⟩ false 2 0 1).2 = true ↔
          ((update_observation ⟨some true, some false, 1, none, none, none, none⟩ false 2 1).last_observed_online ≠ some true ∧
            2 ≤ (update_observation ⟨some true, some false, 1, none, none, none, none⟩ false 2 1).streak)) ∧
        ((process_state_change ⟨some true, some false, 1, none, none, none, none⟩ false 2 0 1).2 = true →
          (process_state_change ⟨some true, some false, 1, none, none, none, none⟩ false 2 0 1).1.last_confirmed_online = some false ∧
          (process_state_change ⟨some true, some false, 1, none, none, none, none⟩ false 2 0 1).1.last_change_ts = some 1 ∧
          (process_state_change ⟨some true, some false, 1, none, none, none, none⟩ false 2 0 1).1.last_message_ts = some 1) ∧
        ((process_state_change ⟨some true, some true, 2, none, none, none, none⟩ false 2 0 0).2 = false ∧
          (process_state_change ⟨some true, some true, 2, none, none, none, none⟩ false 2 0 0).1.streak = 1 ∧
          (process_state_change (process_state_change ⟨some true, some true, 2, none, none, none, none⟩ false 2 0 0).1 false 2 0 1).2 = true ∧
          (process_state_change (process_state_change ⟨some true, some true, 2, none, none, none, none⟩ false 2 0 0).1 false 2 0 1).1.last_confirmed_online = some false) :=
  ⟨by decide,
    delay_zero_confirms_exactly_at_threshold ⟨some true, some false, 1, none, none, none, none⟩
      true false 2 1 (by decide) rfl (fun t ht => Option.noConfusion ht)⟩

/-- C7: Idempotence after confirmation: from a state whose confirmed and
observed values agree on a known boolean, feeding that same observation any
number of times (any threshold, any delay) never notifies and never changes
`last_confirmed_online`. -/
theorem idempotent_after_confirmation (b : Bool) (s0 : DebounceState)
    (thr : Nat) (delay : Int) (ts : List Int)
    (hthr : 1 ≤ thr) (hdelay : 0 ≤ delay)
    (hconf : s0.last_confirmed_online = some b)
    (hobs : s0.last_observed_online = some b) :
    ∀ p ∈ run_trace s0 thr delay (ts.map (fun t => (b, t))),
      p.2 = false ∧ p.1.last_confirmed_online = some b := by
  suffices h : ∀ (l : List Int) (s : DebounceState),
      s.last_confirmed_online = some b → s.last_observed_online = some b →
      ∀ p ∈ run_trace s thr delay (l.map (fun t => (b, t))),
        p.2 = false ∧ p.1.last_confirmed_online = some b from h ts s0 hconf hobs
  intro l
  induction l with
  | nil =>
      intro s _ _ p hp
      rw [List.map_nil, run_trace_nil] at hp
      exact absurd hp (by simp)
  | cons t rest ih =>
      intro s hc ho p hp
      rw [List.map_cons, run_trace_cons, process_stable_step s b thr delay t hc ho] at hp
      rcases List.mem_cons.mp hp with h | h
      · rw [h]
        exact ⟨rfl, hc⟩
      · exact ih ({ s with streak := min (s.streak + 1) (thr + 1) }, false).1 hc ho p h

theorem idempotent_after_confirmation_witness :
    (process_state_change ⟨some true, some true, 2, none, none, none, none⟩ true 2 0 5).2 = false ∧
      (process_state_change ⟨some true, some true, 2, none, none, none, none⟩ true 2 0 5).1.last_confirmed_online = some true :=
  idempotent_after_confirmation true ⟨some true, some true, 2, none, none, none, none⟩ 2 0 [5]
    (by decide) (by decide) rfl rfl
    (process_state_change ⟨some true, some true, 2, none, none, none, none⟩ true 2 0 5) (by decide)

theorem run_trace_append (s : DebounceState) (thr : Nat) (delay : Int)
    (l1 l2 : List (Bool × Int)) :
    run_trace s thr delay (l1 ++ l2) =
      run_trace s thr delay l1 ++
        run_trace (run_final s thr delay l1) thr delay l2 := by
  induction l1 generalizing s with
  | nil => rfl
  | cons o rest ih =>
      obtain ⟨bb, tt⟩ := o
      rw [List.cons_append, run_trace_cons, run_trace_cons, run_final_cons, ih, List.cons_append]

theorem run_final_append (s : DebounceState) (thr : Nat) (delay : Int)
    (l1 l2 : List (Bool × Int)) :
    run_final s thr delay (l1 ++ l2) =
      run_final (run_final s thr delay l1) thr delay l2 := by
  induction l1 generalizing s with
  | nil => rfl
  | cons o rest ih =>
      obtain ⟨bb, tt⟩ := o
      rw [List.cons_append, run_final_cons, run_final_cons, ih]

/-- A contrary observation continuing a contrary streak strictly below the
threshold is a plain streak increment and decides nothing. -/
theorem contrary_step (s : DebounceState) (b : Bool) (thr : Nat) (delay t : Int)
    (hc : s.last_confirmed_online = some b) (ho : s.last_observed_online = some (!b))
    (hlt : s.streak + 1 < thr) :
    process_state_change s (!b) thr delay t = ({ s with streak := s.streak + 1 }, false) := by
  have hmin : min (s.streak + 1) (thr + 1) = s.streak + 1 := Nat.min_eq_left (by omega)
  unfold process_state_change
  rw [update_observation_same s (!b) thr t ho, hmin]
  apply process_phase2_eq_skip
  · rintro ⟨_, _, hst⟩
    have hst' : thr ≤ s.streak + 1 := hst
    omega
  · rintro ⟨hn, _⟩
    have hn' : s.last_confirmed_online = none := hn
    rw [hc] at hn'
    exact Option.noConfusion hn'

/-- The first contrary observation after a confirmed stable run resets the
streak to 1 and decides nothing, provided the threshold exceeds 1. -/
theorem contrary_first_step (s : DebounceState) (b : Bool) (thr : Nat) (delay t : Int)
    (hc : s.last_confirmed_online = some b) (ho : s.last_observed_online ≠ some (!b))
    (hthr2 : 1 < thr) :
    process_state_change s (!b) thr delay t =
      ({ s with
          last_observed_online := some (!b)
          streak := 1
          first_observed_change_ts := some t
          pending_change_since := none }, false) := by
  unfold process_state_change
  rw [update_observation_diff s (!b) thr t ho]
  apply process_phase2_eq_skip
  · rintro ⟨_, _, hst⟩
    have hst' : thr ≤ 1 := hst
    omega
  · rintro ⟨hn, _⟩
    have hn' : s.last_confirmed_online = none := hn
    rw [hc] at hn'
    exact Option.noConfusion hn'

/-- A reversion to the confirmed value resets the streak and decides nothing,
for every threshold and delay. -/
theorem reversion_step (s : DebounceState) (b : Bool) (thr : Nat) (delay t : Int)
    (hc : s.last_confirmed_online = some b) (ho : s.last_observed_online ≠ some b) :
    process_state_change s b thr delay t =
      ({ s with
          last_observed_online := some b
          streak := 1
          first_observed_change_ts := some t
          pending_change_since := none }, false) := by
  unfold process_state_change
  rw [update_observation_diff s b thr t ho]
  apply process_phase2_eq_skip
  · rintro ⟨_, hne, _⟩
    exact hne hc.symm
  · rintro ⟨hn, _⟩
    have hn' : s.last_confirmed_online = none := hn
    rw [hc] at hn'
    exact Option.noConfusion hn'

theorem streak_after_reset (s : DebounceState) (c : Bool) (thr : Nat) (delay t : Int)
    (h : s.last_observed_online ≠ some c) :
    (process_state_change s c thr delay t).1.streak = 1 := by
  unfold process_state_change
  rw [process_phase2_streak, update_observation_diff s c thr t h]

/-- Running a block of contrary observations that keeps the streak strictly
below the threshold never notifies, never touches the confirmed value, and
adds its length to the streak. -/
theorem contrary_run (b : Bool) (thr : Nat) (delay : Int) :
    ∀ (ts : List Int) (s : DebounceState),
      s.last_confirmed_online = some b → s.last_observed_online = some (!b) →
      s.streak + ts.length < thr →
      (∀ p ∈ run_trace s thr delay (ts.map (fun t => (!b, t))),
          p.2 = false ∧ p.1.last_confirmed_online = some b) ∧
        (run_final s thr delay (ts.map (fun t => (!b, t)))).last_confirmed_online = some b ∧
        (run_final s thr delay (ts.map (fun t => (!b, t)))).last_observed_online = some (!b) ∧
        (run_final s thr delay (ts.map (fun t => (!b, t)))).streak = s.streak + ts.length := by
  intro ts
  induction ts with
  | nil =>
      intro s hc ho _
      exact ⟨fun p hp => absurd hp (by simp [run_trace_nil]), hc, ho, by simp [run_final_nil]⟩
  | cons t rest ih =>
      intro s hc ho hlt
      rw [List.length_cons] at hlt
      have hstep := contrary_step s b thr delay t hc ho (by omega)
      rw [List.map_cons, run_trace_cons, run_final_cons, hstep]
      have ih' := ih ({ s with streak := s.streak + 1 }, false).1 hc ho
        (by show s.streak + 1 + rest.length < thr; omega)
      refine ⟨?_, ih'.2.1, ih'.2.2.1, ?_⟩
      · intro p hp
        rcases List.mem_cons.mp hp with h | h
        · rw [h]
          exact ⟨rfl, hc⟩
        · exact ih'.1 p h
      · rw [ih'.2.2.2, List.length_cons]
        show s.streak + 1 + rest.length = s.streak + (rest.length + 1)
        omega

/-- C2: Glitch rejection: from a state whose confirmed and observed values
agree on a known boolean, fewer than `debounceThreshold` consecutive contrary
observations followed by a reversion to the confirmed value never notify and
leave `last_confirmed_online` untouched on every call, for every threshold ≥ 1
and delay ≥ 0; and a subsequent contrary observation restarts the streak at 1. -/
theorem glitch_rejection (b : Bool) (s0 : DebounceState) (thr : Nat) (delay : Int)
    (ts : List Int) (trev t2 : Int)
    (hthr : 1 ≤ thr) (hdelay : 0 ≤ delay)
    (hconf : s0.last_confirmed_online = some b)
    (hobs : s0.last_observed_online = some b)
    (hlen : ts.length < thr) :
    (∀ p ∈ run_trace s0 thr delay (ts.map (fun t => (!b, t)) ++ [(b, trev)]),
        p.2 = false ∧ p.1.last_confirmed_online = some b) ∧
      (run_final s0 thr delay (ts.map (fun t => (!b, t)) ++ [(b, trev)])).last_confirmed_online
          = some b ∧
      (process_state_change
          (run_final s0 thr delay (ts.map (fun t => (!b, t)) ++ [(b, trev)]))
          (!b) thr delay t2).1.streak = 1 := by
  have hbne : (some b : Option Bool) ≠ some (!b) := by cases b <;> decide
  have hbne' : (some (!b) : Option Bool) ≠ some b := by cases b <;> decide
  cases ts with
  | nil =>
      rw [List.map_nil, List.nil_append]
      have hstep := process_stable_step s0 b thr delay trev hconf hobs
      have hfin : run_final s0 thr delay [(b, trev)] =
          ({ s0 with streak := min (s0.streak + 1) (thr + 1) }, false).1 := by
        rw [run_final_cons, hstep, run_final_nil]
      refine ⟨?_, ?_, ?_⟩
      · intro p hp
        rw [run_trace_cons, hstep, run_trace_nil] at hp
        rcases List.mem_cons.mp hp with h | h
        · rw [h]
          exact ⟨rfl, hconf⟩
        · exact absurd h (by simp)
      · rw [hfin]
        exact hconf
      · rw [hfin]
        apply streak_after_reset
        show s0.last_observed_online ≠ some (!b)
        rw [hobs]
        exact hbne
  | cons t rest =>
      rw [List.length_cons] at hlen
      have hthr2 : 1 < thr := by omega
      have hne0 : s0.last_observed_online ≠ some (!b) := by rw [hobs]; exact hbne
      have hstep1 := contrary_first_step s0 b thr delay t hconf hne0 hthr2
      rw [List.map_cons, List.cons_append, run_trace_cons, run_final_cons, hstep1]
      have hmid := contrary_run b thr delay rest
        ({ s0 with
            last_observed_online := some (!b)
            streak := 1
            first_observed_change_ts := some t
            pending_change_since := none }, false).1
        hconf rfl (by show 1 + rest.length < thr; omega)
      have hrevne : (run_final
          ({ s0 with
              last_observed_online := some (!b)
              streak := 1
              first_observed_change_ts := some t
              pending_change_since := none }, false).1
          thr delay (rest.map (fun t => (!b, t)))).last_observed_online ≠ some b := by
        rw [hmid.2.2.1]
        exact hbne'
      have hrev := reversion_step _ b thr delay trev hmid.2.1 hrevne
      rw [run_trace_append, run_final_append, run_trace_cons, run_final_cons, hrev,
        run_trace_nil, run_final_nil]
      refine ⟨?_, ?_, ?_⟩
      · intro p hp
        rcases List.mem_cons.mp hp with h | h
        · rw [h]
          exact ⟨rfl, hconf⟩
        · rcases List.mem_append.mp h with h2 | h2
          · exact hmid.1 p h2
          · rcases List.mem_cons.mp h2 with h3 | h3
            · rw [h3]
              exact ⟨rfl, hmid.2.1⟩
            · exact absurd h3 (by simp)
      · exact hmid.2.1
      · apply streak_after_reset
        show (some b : Option Bool) ≠ some (!b)
        exact hbne

theorem glitch_rejection_witness :
    (∀ p ∈ run_trace ⟨some true, some true, 2, none, none, none, none⟩ 2 0
        ([(0 : Int)].map (fun t => (!true, t)) ++ [(true, 1)]),
        p.2 = false ∧ p.1.last_confirmed_online = some true) ∧
      (run_final ⟨some true, some true, 2, none, none, none, none⟩ 2 0
          ([(0 : Int)].map (fun t => (!true, t)) ++ [(true, 1)])).last_confirmed_online
        = some true ∧
      (process_state_change
          (run_final ⟨some true, some true, 2, none, none, none, none⟩ 2 0
            ([(0 : Int)].map (fun t => (!true, t)) ++ [(true, 1)]))
          (!true) 2 0 2).1.streak = 1 :=
  glitch_rejection true ⟨some true, some true, 2, none, none, none, none⟩ 2 0
    [0] 1 2 (by decide) (by decide) rfl rfl (by decide)

/-- The pending-change invariant exactly as §3 of the spec states it: a set
`pending_change_since` implies the observation differs from the confirmed value
and the streak has reached the threshold. -/
def PendingInv (thr : Nat) (s : DebounceState) : Prop :=
  s.pending_change_since ≠ none →
    s.last_observed_online ≠ s.last_confirmed_online ∧ thr ≤ s.streak

instance (thr : Nat) (s : DebounceState) : Decidable (PendingInv thr s) := by
  unfold PendingInv; infer_instance

/-- The pending-change invariant strengthened with a fact true of every
reachable state: `pending_change_since` is only ever set while
`last_confirmed_online` is a known boolean. -/
def PendingInvKnown (thr : Nat) (s : DebounceState) : Prop :=
  s.pending_change_since ≠ none →
    s.last_confirmed_online ≠ none ∧
      s.last_observed_online ≠ s.last_confirmed_online ∧ thr ≤ s.streak

instance (thr : Nat) (s : DebounceState) : Decidable (PendingInvKnown thr s) := by
  unfold PendingInvKnown; infer_instance

/-- `PendingInvKnown` further strengthened with the other reachability fact: a
set pending timestamp is never in the future of the current clock reading. -/
def PendingInvReach (thr : Nat) (now : Int) (s : DebounceState) : Prop :=
  s.pending_change_since ≠ none →
    s.last_confirmed_online ≠ none ∧
      s.last_observed_online ≠ s.last_confirmed_online ∧
      thr ≤ s.streak ∧ s.pending_change_since.getD now ≤ now

instance (thr : Nat) (now : Int) (s : DebounceState) : Decidable (PendingInvReach thr now s) := by
  unfold PendingInvReach; infer_instance

/-- A set pending timestamp survives the observation phase only if the
observation matched (the update was a pure streak increment) and the timestamp
was already set before the call. -/
theorem update_observation_pending_ne (prev : DebounceState) (c : Bool) (thr : Nat) (now : Int)
    (h : (update_observation prev c thr now).pending_change_since ≠ none) :
    prev.last_observed_online = some c ∧
      update_observation prev c thr now = { prev with streak := min (prev.streak + 1) (thr + 1) } ∧
      prev.pending_change_since ≠ none := by
  by_cases ho : prev.last_observed_online = some c
  · refine ⟨ho, update_observation_same prev c thr now ho, ?_⟩
    rw [update_observation_same prev c thr now ho] at h
    exact h
  · rw [update_observation_diff prev c thr now ho] at h
    exact absurd rfl h

/-- C5 counterexample: the pending-change invariant, as the claim states it, is
not preserved by `process_state_change`. From a state with an unknown confirmed
value, an observation of `true`, streak 2 and a set pending timestamp — a state
satisfying the stated invariant — the initial-baseline branch confirms the
observed value while leaving `pending_change_since` set, so the output has a
pending timestamp while observed and confirmed agree. -/
theorem pending_inv_not_preserved :
    PendingInv 2 ⟨none, some true, 2, none, none, some 0, none⟩ ∧
      ¬ PendingInv 2
        (process_state_change ⟨none, some true, 2, none, none, some 0, none⟩ true 2 5 10).1 := by
  decide

/-- C5 (amended): `process_state_change` preserves the pending-change invariant
strengthened with the reachability fact that a pending change implies a known
confirmed value (`PendingInvKnown`); moreover `pending_change_since` is cleared
whenever the observation reverts to match the confirmed value before
confirmation, and whenever a change is confirmed. -/
theorem pending_inv_known_preserved (prev : DebounceState) (current : Bool)
    (thr : Nat) (delay now : Int)
    (hinv : PendingInvKnown thr prev) :
    PendingInvKnown thr (process_state_change prev current thr delay now).1 ∧
      (∀ bb : Bool, prev.last_confirmed_online = some bb → current = bb →
        prev.last_observed_online ≠ some bb →
        (process_state_change prev current thr delay now).1.pending_change_since = none) ∧
      ((process_state_change prev current thr delay now).2 = true →
        (process_state_change prev current thr delay now).1.pending_change_since = none) := by
  have hclear1 : ∀ bb : Bool, prev.last_confirmed_online = some bb → current = bb →
      prev.last_observed_online ≠ some bb →
      (process_state_change prev current thr delay now).1.pending_change_since = none := by
    rintro bb hcb rfl hne
    rw [reversion_step prev current thr delay now hcb hne]
  have hclear2 : (process_state_change prev current thr delay now).2 = true →
      (process_state_change prev current thr delay now).1.pending_change_since = none := by
    unfold process_state_change
    intro h
    obtain ⟨h1, h2, h3, h4⟩ :=
      (process_phase2_notify_iff (update_observation prev current thr now) thr delay now).mp h
    rw [process_phase2_eq_confirm _ thr delay now h1 h2 h3 h4]
  refine ⟨?_, hclear1, hclear2⟩
  unfold process_state_change
  set u := update_observation prev current thr now with hu
  have hcu : u.last_confirmed_online = prev.last_confirmed_online := by
    rw [hu]; exact update_observation_confirmed prev current thr now
  by_cases hA : (u.last_confirmed_online ≠ none ∧
      u.last_observed_online ≠ u.last_confirmed_online ∧ thr ≤ u.streak)
  · by_cases hD : delay ≤ now - u.pending_change_since.getD now
    · rw [process_phase2_eq_confirm u thr delay now hA.1 hA.2.1 hA.2.2 hD]
      intro hpend
      exact absurd rfl hpend
    · rw [process_phase2_eq_wait u thr delay now hA.1 hA.2.1 hA.2.2 hD]
      intro _
      exact ⟨hA.1, hA.2.1, hA.2.2⟩
  · by_cases hB : (u.last_confirmed_online = none ∧ thr ≤ u.streak)
    · rw [process_phase2_eq_initial u thr delay now hB.1 hB.2]
      intro hpend
      have hpend' : u.pending_change_since ≠ none := hpend
      rw [hu] at hpend'
      obtain ⟨_, _, hpp⟩ := update_observation_pending_ne prev current thr now hpend'
      have hk := (hinv hpp).1
      apply absurd _ hk
      rw [← hcu]
      exact hB.1
    · rw [process_phase2_eq_skip u thr delay now hA hB]
      intro hpend
      have hpend' : u.pending_change_since ≠ none := hpend
      rw [hu] at hpend'
      obtain ⟨ho, hueq, hpp⟩ := update_observation_pending_ne prev current thr now hpend'
      obtain ⟨hk, hne, hst⟩ := hinv hpp
      rw [hu, hueq]
      refine ⟨hk, hne, ?_⟩
      show thr ≤ min (prev.streak + 1) (thr + 1)
      exact Nat.le_min.mpr ⟨by omega, by omega⟩

theorem pending_inv_known_preserved_witness :
    PendingInvKnown 2 ⟨some true, some false, 2, none, none, some 0, none⟩ ∧
      (PendingInvKnown 2
          (process_state_change ⟨some true, some false, 2, none, none, some 0, none⟩ false 2 5 3).1 ∧
        (∀ bb : Bool,
          (⟨some true, some false, 2, none, none, some 0, none⟩ : DebounceState).last_confirmed_online = some bb →
          false = bb →
          (⟨some true, some false, 2, none, none, some 0, none⟩ : DebounceState).last_observed_online ≠ some bb →
          (process_state_change ⟨some true, some false, 2, none, none, some 0, none⟩ false 2 5 3).1.pending_change_since = none) ∧
        ((process_state_change ⟨some true, some false, 2, none, none, some 0, none⟩ false 2 5 3).2 = true →
          (process_state_change ⟨some true, some false, 2, none, none, some 0, none⟩ false 2 5 3).1.pending_change_since = none)) :=
  ⟨by decide,
    pending_inv_known_preserved ⟨some true, some false, 2, none, none, some 0, none⟩
      false 2 5 3 (by decide)⟩

/-- C10 counterexample: with `confirmation_delay_seconds = 0`, the stated
pending-change invariant does not force the returned `pending_change_since` to
be unset: a pending timestamp in the future of `now` makes `elapsed` negative,
so the candidate is neither confirmed nor cleared. -/
theorem delay_zero_pending_not_cleared :
    PendingInv 2 ⟨some true, some false, 2, none, none, some 100, none⟩ ∧
      (process_state_change ⟨some true, some false, 2, none, none, some 100, none⟩
          false 2 0 50).1.pending_change_since ≠ none := by
  decide

/-- C10 (amended): with the deployed `confirmation_delay_seconds = 0` (the
parameter default, which `lambda_handler` does not override), every input
satisfying the pending-change invariant strengthened with the reachability
facts (a pending change implies a known confirmed value and a pending
timestamp not in the future of `now`) yields a state with
`pending_change_since` unset, so the deployed cycle never carries a pending
candidate across invocations. -/
theorem delay_zero_clears_pending (prev : DebounceState) (current : Bool)
    (thr : Nat) (now : Int)
    (hinv : PendingInvReach thr now prev) :
    (process_state_change prev current thr 0 now).1.pending_change_since = none := by
  unfold process_state_change
  set u := update_observation prev current thr now with hu
  have hcu : u.last_confirmed_online = prev.last_confirmed_online := by
    rw [hu]; exact update_observation_confirmed prev current thr now
  by_cases hA : (u.last_confirmed_online ≠ none ∧
      u.last_observed_online ≠ u.last_confirmed_online ∧ thr ≤ u.streak)
  · have hD : (0 : Int) ≤ now - u.pending_change_since.getD now := by
      cases hp : u.pending_change_since with
      | none => simp
      | some t =>
          have hpne : u.pending_change_since ≠ none := by rw [hp]; simp
          rw [hu] at hpne
          obtain ⟨ho, hueq, hpp⟩ := update_observation_pending_ne prev current thr now hpne
          have h4 := (hinv hpp).2.2.2
          have hpt : prev.pending_change_since = some t := by
            rw [hu, hueq] at hp
            exact hp
          rw [hpt] at h4
          simp only [Option.getD_some] at h4 ⊢
          omega
    rw [process_phase2_eq_confirm u thr 0 now hA.1 hA.2.1 hA.2.2 hD]
  · by_cases hB : (u.last_confirmed_online = none ∧ thr ≤ u.streak)
    · rw [process_phase2_eq_initial u thr 0 now hB.1 hB.2]
      show u.pending_change_since = none
      by_contra hpend
      rw [hu] at hpend
      obtain ⟨_, _, hpp⟩ := update_observation_pending_ne prev current thr now hpend
      apply absurd _ (hinv hpp).1
      rw [← hcu]
      exact hB.1
    · rw [process_phase2_eq_skip u thr 0 now hA hB]
      show u.pending_change_since = none
      by_contra hpend
      rw [hu] at hpend
      obtain ⟨ho, hueq, hpp⟩ := update_observation_pending_ne prev current thr now hpend
      obtain ⟨hk, hne, hst, _⟩ := hinv hpp
      apply hA
      rw [hu, hueq]
      refine ⟨hk, hne, ?_⟩
      show thr ≤ min (prev.streak + 1) (thr + 1)
      exact Nat.le_min.mpr ⟨by omega, by omega⟩

theorem delay_zero_clears_pending_witness :
    PendingInvReach 2 5 ⟨some true, some false, 2, none, none, some 1, none⟩ ∧
      (process_state_change ⟨some true, some false, 2, none, none, some 1, none⟩
          false 2 0 5).1.pending_change_since = none :=
  ⟨by decide,
    delay_zero_clears_pending ⟨some true, some false, 2, none, none, some 1, none⟩
      false 2 5 (by decide)⟩

/-! Model of `src/state_store.py`. Stored blobs are flat string-keyed mappings
(§6 of the spec: "Blob is a flat mapping of the fields in §3"), with values
drawn from the Python types the store handles. DynamoDB Decimals are exact
rationals, modelled as `ℚ`. -/

/-- A Python value as it appears in a stored state blob. -/
inductive PyVal where
  | null
  | boolean (b : Bool)
  | int (n : Int)
  | float (q : ℚ)
  | decimal (q : ℚ)
  | str (s : String)
  deriving Repr, DecidableEq

/-- A flat DynamoDB item / Python dict. -/
abbrev Item := List (String × PyVal)

/-- The fixed partition key `StateStore.STATE_PK`. -/
def STATE_PK : String := "state"

/-- Value conversion inside `StateStore._deserialize_item`: a Decimal becomes
an int when it is integral and a float otherwise; other values pass through. -/
def deserialize_value : PyVal → PyVal
  | .decimal q => if q.den = 1 then .int q.num else .float q
  | v => v

/-- `StateStore._deserialize_item`: drop the partition key and convert each
remaining value. -/
def _deserialize_item (item : Item) : Item :=
  (item.filter (fun kv => kv.1 ≠ "pk")).map (fun kv => (kv.1, deserialize_value kv.2))

/-- `StateStore._default_state`: the default initial blob. -/
def _default_state : Item :=
  [("last_confirmed_online", PyVal.null),
   ("last_observed_online", PyVal.null),
   ("streak", PyVal.int 0),
   ("last_change_ts", PyVal.null),
   ("last_message_ts", PyVal.null)]

/-- Outcome of the DynamoDB `get_item` call as observed by `load_state`: an
item is present under the key, no item exists, or the read raises. -/
inductive GetItemResult where
  | found (item : Item)
  | missing
  | raised (msg : String)
  deriving Repr, DecidableEq

/-- `StateStore.load_state`: read the item under the fixed key and deserialize
it; on absence or on any raised read error return the default state. The
`try/except` of the source makes this a total function of the read outcome —
no read error reaches the caller. -/
def load_state (get_item : String → GetItemResult) : Item :=
  match get_item STATE_PK with
  | .found item => _deserialize_item item
  | .missing => _default_state
  | .raised _ => _default_state

def field_opt_bool (d : Item) (k : String) : Option Bool :=
  match (d.find? (fun kv => kv.1 == k)).map (fun kv => kv.2) with
  | some (PyVal.boolean b) => some b
  | _ => none

def field_nat (d : Item) (k : String) : Nat :=
  match (d.find? (fun kv => kv.1 == k)).map (fun kv => kv.2) with
  | some (PyVal.int n) => n.toNat
  | _ => 0

def field_time (d : Item) (k : String) : Option Int :=
  match (d.find? (fun kv => kv.1 == k)).map (fun kv => kv.2) with
  | some (PyVal.int n) => some n
  | _ => none

/-- The `DebounceState(**prev_state)` bridge at `src/app.py` line 110: build
the engine state from a stored blob; a key that is absent or `None` falls back
to the dataclass default (timestamps are integral in this model). -/
def stateOfBlob (d : Item) : DebounceState :=
  { last_confirmed_online := field_opt_bool d "last_confirmed_online"
    last_observed_online := field_opt_bool d "last_observed_online"
    streak := field_nat d "streak"
    last_change_ts := field_time d "last_change_ts"
    last_message_ts := field_time d "last_message_ts"
    pending_change_since := field_time d "pending_change_since"
    first_observed_change_ts := field_time d "first_observed_change_ts" }

/-- C8: `StateStore.load_state` returns the default zero-value state both when
no item exists under the fixed key and when the read raises an error, never
propagating the error; the default blob yields the `DebounceState` with every
§3 field unset/zero (both booleans unknown, streak 0, all timestamps unset). -/
theorem load_state_degrades_to_default (tblA tblB : String → GetItemResult) (e : String)
    (hA : tblA STATE_PK = GetItemResult.missing)
    (hB : tblB STATE_PK = GetItemResult.raised e) :
    load_state tblA = _default_state ∧
      load_state tblB = _default_state ∧
      stateOfBlob _default_state = ({} : DebounceState) := by
  refine ⟨?_, ?_, by decide⟩
  · unfold load_state
    rw [hA]
  · unfold load_state
    rw [hB]

theorem load_state_degrades_to_default_witness :
    load_state (fun _ => GetItemResult.missing) = _default_state ∧
      load_state (fun _ => GetItemResult.raised "boom") = _default_state ∧
      stateOfBlob _default_state = ({} : DebounceState) :=
  load_state_degrades_to_default (fun _ => GetItemResult.missing)
    (fun _ => GetItemResult.raised "boom") "boom" rfl rfl

end TuyaOnline
